import Mathlib

/-!
Verification of the emoji-search repository's core:

* the embedding codec `packEmbeddingsBinary` / `decodeEmbeddingsBinary`
  (src/utils/embeddings.ts);
* the vector-store query `searchEmbeddings` (src/utils/pglite.ts,
  src/utils/db.ts);
* the search coordinator `EmojiSearchCore` (src/hooks/useEmojiSearch.ts).

JavaScript numbers are modelled as exact rationals (`ℚ`); `Int8Array`
cells as `ℤ`; thrown exceptions as `Except String`.  The byte-level
blob is modelled structurally: header bytes are kept as `Nat` fields in
source order, the two payload arrays as lists.
-/

/-- Row fed to the codec: `EmbeddingRow` from src/utils/types.ts
(`content: string; embedding: number[]`). -/
structure EmbeddingRow where
  content : String
  embedding : List ℚ
deriving DecidableEq, Repr

instance : Inhabited EmbeddingRow := ⟨⟨"", []⟩⟩

/-- JavaScript `Math.round`, which is `⌊x + 1/2⌋` (halves round toward
positive infinity). -/
def jsRound (x : ℚ) : ℤ := ⌊x + 1/2⌋

/-- The running maximum of absolute component values, as computed by the
`maxAbs` loop in `packEmbeddingsBinary` (starts at `0`, replaces the
accumulator whenever `Math.abs(vec[d])` exceeds it). -/
def maxAbsOf (vec : List ℚ) : ℚ := vec.foldl (fun m v => max m |v|) 0

/-- The per-vector quantization scale of `packEmbeddingsBinary`:
`maxAbs / 127` when `maxAbs > 0`, and `1` otherwise. -/
def scaleOf (vec : List ℚ) : ℚ :=
  if 0 < maxAbsOf vec then maxAbsOf vec / 127 else 1

/-- `Math.max(-127, Math.min(127, q))` from `packEmbeddingsBinary`. -/
def clampInt8 (q : ℤ) : ℤ := max (-127) (min 127 q)

/-- Quantization of one vector in `packEmbeddingsBinary`: the scale plus
the clamped rounded components. -/
def quantizeVector (vec : List ℚ) : ℚ × List ℤ :=
  (scaleOf vec, vec.map (fun v => clampInt8 (jsRound (v / scaleOf vec))))

/-- Structural model of the packed blob produced by
`packEmbeddingsBinary`.  Header fields appear in the byte order of the
source (`magic(4) | version(1) | n(4) | dim(4) | dtype(1) | pad`);
`count` and `dim` are the wrapped `uint32` values written by
`setUint32`. -/
structure PackedBlob where
  m0 : Nat
  m1 : Nat
  m2 : Nat
  m3 : Nat
  version : Nat
  count : Nat
  dim : Nat
  dtype : Nat
  pad : List Nat
  scales : List ℚ
  data : List ℤ
deriving DecidableEq, Repr

/-- Per-vector pass of `packEmbeddingsBinary`: checks
`vec.length !== dim` (throwing `'dim mismatch'`) and quantizes each
vector in order. -/
def packVectors (dim : Nat) : List EmbeddingRow → Except String (List (ℚ × List ℤ))
  | [] => .ok []
  | r :: rs =>
    if r.embedding.length = dim then
      match packVectors dim rs with
      | .ok qs => .ok (quantizeVector r.embedding :: qs)
      | .error e => .error e
    else .error "dim mismatch"

/-- Model of `packEmbeddingsBinary` (src/utils/embeddings.ts).  Throws
`'no embeddings'` on an empty batch; otherwise takes `dim` from the
first vector, quantizes every vector (throwing `'dim mismatch'` on a
length deviation) and assembles the blob.  `headerFixedBytes = 14`, so
the zero padding is two bytes. -/
def packEmbeddingsBinary (embeds : List EmbeddingRow) : Except String PackedBlob :=
  match embeds with
  | [] => .error "no embeddings"
  | first :: _ =>
    let dim := first.embedding.length
    match packVectors dim embeds with
    | .error e => .error e
    | .ok qs =>
      .ok { m0 := 0x45, m1 := 0x4d, m2 := 0x42, m3 := 0x44
            version := 1
            count := embeds.length % 2 ^ 32
            dim := dim % 2 ^ 32
            dtype := 1
            pad := [0, 0]
            scales := qs.map Prod.fst
            data := (qs.map Prod.snd).flatten }

/-- Meta item accepted by `decodeEmbeddingsBinary`
(`{ content?: string; id?: string }`). -/
structure MetaItem where
  content : Option String
  id : Option String
deriving DecidableEq, Repr

/-- Result type `DecodedEmbeddings` of src/utils/embeddings.ts, with the
optional dequantized `rows`. -/
structure DecodedEmbeddings where
  n : Nat
  dim : Nat
  scales : List ℚ
  data : List ℤ
  rows : Option (List EmbeddingRow)
deriving DecidableEq, Repr

/-- Model of `decodeEmbeddingsBinary` (src/utils/embeddings.ts).  Checks
magic, version and dtype in source order; the `'RangeError'` branches
model the typed-array view constructors throwing when the buffer is too
short for `n` scales or `n*dim` data bytes.  With `meta` supplied it
checks `meta.length !== n` and dequantizes each row as
`data[base+d] * (scales[i] || 1)` with
`content = meta[i].content ?? meta[i].id ?? ''`. -/
def decodeEmbeddingsBinary (blob : PackedBlob) (meta : Option (List MetaItem)) :
    Except String DecodedEmbeddings :=
  if ¬(blob.m0 = 0x45 ∧ blob.m1 = 0x4d ∧ blob.m2 = 0x42 ∧ blob.m3 = 0x44) then
    .error "bad magic"
  else if blob.version ≠ 1 then .error "bad ver"
  else if blob.dtype ≠ 1 then .error "bad dt"
  else if blob.scales.length < blob.count then .error "RangeError"
  else if blob.data.length < blob.count * blob.dim then .error "RangeError"
  else
    let n := blob.count
    let dim := blob.dim
    let scales := blob.scales.take n
    let data := blob.data.take (n * dim)
    match meta with
    | none => .ok ⟨n, dim, scales, data, none⟩
    | some m =>
      if m.length ≠ n then .error "meta length mismatch"
      else
        let rows := (List.range n).map (fun i =>
          let scale0 := scales.getD i 0
          let scale := if scale0 = 0 then 1 else scale0
          let item := m.getD i ⟨none, none⟩
          ({ content := item.content.getD (item.id.getD "")
             embedding := (List.range dim).map
               (fun d => (data.getD (i * dim + d) 0 : ℚ) * scale) } : EmbeddingRow))
        .ok ⟨n, dim, scales, data, some rows⟩

/-- Recursive inner product of two number lists, as accumulated by the
`dot` loop of the repository's `cosine` helper
(src/utils/embeddings.test.ts) and by pgvector's inner-product
distance. -/
def innerProduct : List ℚ → List ℚ → ℚ
  | x :: xs, y :: ys => x * y + innerProduct xs ys
  | _, _ => 0

/-- Rendering of the comparison `cosine(a, b) > t` (for a positive
threshold `t`) of the repository's `cosine` helper
(src/utils/embeddings.test.ts) in square-free form over `ℚ`:
`dot/(√na·√nb) > t` iff `dot > 0` and `t² · na · nb < dot²`.  When
either vector is all zeros the helper's `|| 1` guards make it return
`0`, which agrees with this predicate being false. -/
def cosineSimGt (a b : List ℚ) (t : ℚ) : Prop :=
  0 < innerProduct a b ∧
    t ^ 2 * (innerProduct a a * innerProduct b b) < innerProduct a b ^ 2

instance (a b : List ℚ) (t : ℚ) : Decidable (cosineSimGt a b t) := by
  unfold cosineSimGt; infer_instance

/-- Row of the `embeddings` table as selected by `searchEmbeddings`
(src/utils/pglite.ts: `id, identifier, content, embedding`). -/
structure StoredRow where
  id : Nat
  identifier : String
  content : String
  embedding : List ℚ
deriving DecidableEq, Repr

/-- pgvector's inner-product distance `embedding <#> query`: the
negative inner product. -/
def ipDist (qvec : List ℚ) (r : StoredRow) : ℚ := -innerProduct r.embedding qvec

/-- First row attaining the minimal value of `f`, i.e. the row kept by
`distinct on (identifier)` under `order by identifier, dist` within one
identifier group. -/
def argminRow (f : StoredRow → ℚ) : List StoredRow → Option StoredRow
  | [] => none
  | r :: rs =>
    match argminRow f rs with
    | none => some r
    | some m => if f r ≤ f m then some r else some m

/-- Relational semantics of the `searchEmbeddings` query
(src/utils/pglite.ts lines 147-160, identical in src/utils/db.ts
`search`): keep rows with `embedding <#> $1 < -matchThreshold`;
`distinct on (identifier) ... order by identifier, dist` keeps one
minimal-distance row per identifier; the outer query orders by `dist`
and applies `limit`. -/
def searchEmbeddings (table : List StoredRow) (qvec : List ℚ)
    (matchThreshold : ℚ) (limit : Nat) : List StoredRow :=
  let filtered := table.filter (fun r => ipDist qvec r < -matchThreshold)
  let deduped := ((filtered.map (fun r => r.identifier)).dedup).filterMap
    (fun ident => argminRow (ipDist qvec) (filtered.filter (fun r => r.identifier = ident)))
  (deduped.insertionSort (fun a b => ipDist qvec a ≤ ipDist qvec b)).take limit

/-- Search hit consumed by the coordinator: `deps.search` resolves to
`{ identifier: string }[]` (src/hooks/useEmojiSearch.ts). -/
structure SearchHit where
  identifier : String
deriving DecidableEq, Repr

/-- Pending debounced dispatch captured by the `setTimeout` closure in
`classify`. -/
structure DebouncedCall where
  text : String
  noCache : Option Bool
deriving DecidableEq, Repr

/-- Message posted to the inference worker: the `preload` instruction
from `initialize()` or the debounced `{ text, noCache }` query. -/
inductive WorkerInbound where
  | preload (noCache : Option Bool)
  | query (text : String) (noCache : Option Bool)
deriving DecidableEq, Repr

/-- Worker status tags of the outbound protocol. -/
inductive WorkerStatus where
  | initiate
  | ready
  | complete
deriving DecidableEq, Repr

/-- Message received from the inference worker
(`{ status?, embedding? }`). -/
structure WorkerMessage where
  status : Option WorkerStatus
  embedding : Option (List ℚ)
deriving DecidableEq, Repr

/-- State of `EmojiSearchCore` (src/hooks/useEmojiSearch.ts), with the
hand-rolled resolvable promise made explicit: `promiseCreated` models
`dbReadyPromise !== null`, `promiseValue` its resolution state,
`waiters` the `complete` handlers suspended on `await
this.dbReadyPromise` (each holding its message's optional embedding),
and `posted` the log of `worker.postMessage` calls. -/
structure CoreState (DB : Type) where
  matched : Option (List String)
  modelReady : Bool
  dbReady : Bool
  isSearching : Bool
  database : Option DB
  promiseCreated : Bool
  promiseValue : Option DB
  waiters : List (Option (List ℚ))
  debounceTimer : Option DebouncedCall
  posted : List WorkerInbound
deriving DecidableEq, Repr

/-- Field-initializer state of a freshly constructed `EmojiSearchCore`. -/
def CoreState.mk0 (DB : Type) : CoreState DB :=
  ⟨none, false, false, false, none, false, none, [], none, []⟩

namespace EmojiSearchCore

variable {DB : Type}

/-- Model of `initialize()`: creates the deferred store-ready promise
(pending), starts the store load (whose completion is delivered later
as a separate event) and posts the `preload` instruction. -/
def initCoordinator (noCache : Option Bool) (s : CoreState DB) : CoreState DB :=
  { s with promiseCreated := true
           promiseValue := none
           posted := s.posted ++ [WorkerInbound.preload noCache] }

/-- Tail of the `complete` handler once a store handle `db` is in hand:
`if (!db || !message.embedding)` clears `isSearching`; otherwise it runs
`deps.search` and stores the ordered identifiers. -/
def resumeComplete (search : DB → List ℚ → List SearchHit) (db : DB)
    (embedding : Option (List ℚ)) (s : CoreState DB) : CoreState DB :=
  match embedding with
  | none => { s with isSearching := false }
  | some emb =>
    { s with matched := some ((search db emb).map (fun h => h.identifier))
             isSearching := false }

/-- Successful completion of `loadDatabase()`: caches the handle, sets
`dbReady`, and resolves the store-ready promise, which resumes every
suspended `complete` handler in order. -/
def loadDbOk (search : DB → List ℚ → List SearchHit) (db : DB)
    (s : CoreState DB) : CoreState DB :=
  let s1 := { s with database := some db, dbReady := true }
  if s1.promiseCreated then
    let s2 := { s1 with promiseValue := some db }
    let s3 := s2.waiters.foldl (fun st w => resumeComplete search db w st) s2
    { s3 with waiters := [] }
  else s1

/-- Failed completion of `loadDatabase()`: the `catch` block only logs
(`console.error('DB load failed', error)`), so the state is untouched. -/
def loadDbErr (s : CoreState DB) : CoreState DB := s

/-- Model of `handleWorkerMessage`.  On `complete` with no cached store
handle it awaits the store-ready promise: if the promise is still
pending the handler suspends (joins `waiters`); if there is no promise
at all, `db` stays null and `isSearching` is cleared without a query. -/
def handleWorkerMessage (search : DB → List ℚ → List SearchHit)
    (m : WorkerMessage) (s : CoreState DB) : CoreState DB :=
  match m.status with
  | some WorkerStatus.initiate => { s with modelReady := false }
  | some WorkerStatus.ready => { s with modelReady := true }
  | some WorkerStatus.complete =>
    match s.database with
    | some db => resumeComplete search db m.embedding s
    | none =>
      if s.promiseCreated then
        match s.promiseValue with
        | some db => resumeComplete search db m.embedding s
        | none => { s with waiters := s.waiters ++ [m.embedding] }
      else
        { s with isSearching := false }
  | none => s

/-- ECMA-262 WhiteSpace and LineTerminator code points, the characters
removed by `String.prototype.trim`. -/
def jsWhitespace (c : Char) : Bool :=
  c.val = 0x9 ∨ c.val = 0xA ∨ c.val = 0xB ∨ c.val = 0xC ∨ c.val = 0xD ∨
  c.val = 0x20 ∨ c.val = 0xA0 ∨ c.val = 0x1680 ∨
  (0x2000 ≤ c.val ∧ c.val ≤ 0x200A) ∨
  c.val = 0x2028 ∨ c.val = 0x2029 ∨ c.val = 0x202F ∨ c.val = 0x205F ∨
  c.val = 0x3000 ∨ c.val = 0xFEFF

/-- JavaScript `text.trim()`: leading and trailing whitespace removed. -/
def jsTrim (s : String) : String :=
  String.mk (((s.toList.dropWhile jsWhitespace).reverse.dropWhile jsWhitespace).reverse)

/-- Model of `classify(text, options)`: always clears a pending
debounced dispatch first; on blank text clears `matched` and
`isSearching` and returns; otherwise sets `isSearching` immediately and
schedules the debounced worker call (`DEBOUNCE_DELAY_MS = 150`). -/
def classify (text : String) (noCache : Option Bool) (s : CoreState DB) : CoreState DB :=
  let s0 := { s with debounceTimer := none }
  if jsTrim text = "" then
    { s0 with matched := none, isSearching := false }
  else
    { s0 with isSearching := true
              debounceTimer := some ⟨text, noCache⟩ }

/-- Expiry of the debounce timer: posts the captured query to the
worker.  A cleared timer never fires. -/
def fireDebounce (s : CoreState DB) : CoreState DB :=
  match s.debounceTimer with
  | none => s
  | some c =>
    { s with debounceTimer := none
             posted := s.posted ++ [WorkerInbound.query c.text c.noCache] }

/-- Events driving the coordinator: its public calls, the two
completions of the store load, worker messages, and debounce-timer
expiry. -/
inductive CoreEvent (DB : Type) where
  | initEv (noCache : Option Bool)
  | dbLoadOk (db : DB)
  | dbLoadErr
  | workerMsg (m : WorkerMessage)
  | classifyEv (text : String) (noCache : Option Bool)
  | debounceFire

/-- One step of the coordinator under an event. -/
def step (search : DB → List ℚ → List SearchHit) (s : CoreState DB) :
    CoreEvent DB → CoreState DB
  | .initEv nc => initCoordinator nc s
  | .dbLoadOk db => loadDbOk search db s
  | .dbLoadErr => loadDbErr s
  | .workerMsg m => handleWorkerMessage search m s
  | .classifyEv t nc => classify t nc s
  | .debounceFire => fireDebounce s

/-- Recognizer for the successful store-load event. -/
def isDbLoadOk : CoreEvent DB → Bool
  | .dbLoadOk _ => true
  | _ => false

end EmojiSearchCore

/-! ### Codec lemmas -/

theorem le_foldl_maxAbs (vec : List ℚ) (a : ℚ) :
    a ≤ vec.foldl (fun m v => max m |v|) a := by
  induction vec generalizing a with
  | nil => exact le_refl a
  | cons x xs ih =>
    exact le_trans (le_max_left a |x|) (ih (max a |x|))

theorem maxAbsOf_nonneg (vec : List ℚ) : 0 ≤ maxAbsOf vec :=
  le_foldl_maxAbs vec 0

theorem abs_le_foldl_maxAbs (vec : List ℚ) (v : ℚ) (hv : v ∈ vec) (a : ℚ) :
    |v| ≤ vec.foldl (fun m v => max m |v|) a := by
  induction vec generalizing a with
  | nil => cases hv
  | cons x xs ih =>
    rcases List.mem_cons.mp hv with h | h
    · subst h
      exact le_trans (le_max_right a |v|) (le_foldl_maxAbs xs (max a |v|))
    · exact ih h (max a |x|)

theorem abs_le_maxAbsOf (vec : List ℚ) (v : ℚ) (hv : v ∈ vec) :
    |v| ≤ maxAbsOf vec :=
  abs_le_foldl_maxAbs vec v hv 0

theorem scaleOf_pos (vec : List ℚ) : 0 < scaleOf vec := by
  unfold scaleOf
  split
  · next h => positivity
  · norm_num

theorem clampInt8_bounds (q : ℤ) : -127 ≤ clampInt8 q ∧ clampInt8 q ≤ 127 := by
  unfold clampInt8
  constructor
  · exact le_max_left _ _
  · exact max_le (by norm_num) (min_le_left _ _)

theorem clampInt8_eq_self (q : ℤ) (h1 : -127 ≤ q) (h2 : q ≤ 127) :
    clampInt8 q = q := by
  unfold clampInt8
  rw [min_eq_right h2, max_eq_right h1]

theorem jsRound_le (x : ℚ) : (jsRound x : ℚ) - x ≤ 1/2 := by
  unfold jsRound
  have := Int.floor_le (x + 1/2)
  linarith

theorem jsRound_ge (x : ℚ) : -(1/2) < (jsRound x : ℚ) - x := by
  unfold jsRound
  have := Int.lt_floor_add_one (x + 1/2)
  linarith

theorem abs_jsRound_sub_le (x : ℚ) : |(jsRound x : ℚ) - x| ≤ 1/2 := by
  rw [abs_le]
  exact ⟨le_of_lt (by linarith [jsRound_ge x]), jsRound_le x⟩

theorem jsRound_mem_Icc (x : ℚ) (h : |x| ≤ 127) :
    -127 ≤ jsRound x ∧ jsRound x ≤ 127 := by
  rw [abs_le] at h
  constructor
  · rw [jsRound, Int.le_floor]
    push_cast
    linarith [h.1]
  · have h2 : ⌊x + 1/2⌋ ≤ ⌊(255 : ℚ)/2⌋ := Int.floor_le_floor (by linarith [h.2])
    have h3 : ⌊(255 : ℚ)/2⌋ = 127 := by norm_num
    rw [jsRound]
    omega

theorem packVectors_ok (dim : Nat) (l : List EmbeddingRow)
    (h : ∀ r ∈ l, r.embedding.length = dim) :
    packVectors dim l = .ok (l.map (fun r => quantizeVector r.embedding)) := by
  induction l with
  | nil => rfl
  | cons r rs ih =>
    have hr : r.embedding.length = dim := h r (List.mem_cons_self r rs)
    have hrest := ih (fun x hx => h x (List.mem_cons_of_mem r hx))
    simp [packVectors, hr, hrest]

theorem packVectors_error (dim : Nat) (l : List EmbeddingRow)
    (h : ∃ r ∈ l, r.embedding.length ≠ dim) :
    packVectors dim l = .error "dim mismatch" := by
  induction l with
  | nil => simp at h
  | cons r rs ih =>
    by_cases hr : r.embedding.length = dim
    · have hrest : ∃ x ∈ rs, x.embedding.length ≠ dim := by
        rcases h with ⟨x, hx, hne⟩
        rcases List.mem_cons.mp hx with rfl | hx'
        · exact absurd hr hne
        · exact ⟨x, hx', hne⟩
      simp [packVectors, hr, ih hrest]
    · simp [packVectors, hr]

theorem flatten_length_const {α : Type} (L : List (List α)) (dim : Nat)
    (h : ∀ l ∈ L, l.length = dim) : L.flatten.length = L.length * dim := by
  induction L with
  | nil => simp
  | cons l ls ih =>
    have hl : l.length = dim := h l (List.mem_cons_self l ls)
    have := ih (fun x hx => h x (List.mem_cons_of_mem l hx))
    simp [hl, this, Nat.succ_mul, Nat.add_comm]

theorem flatten_getD_const {α : Type} [Inhabited α] (L : List (List α)) (dim : Nat)
    (h : ∀ l ∈ L, l.length = dim) (i d : Nat) (hi : i < L.length) (hd : d < dim)
    (dflt : α) :
    L.flatten.getD (i * dim + d) dflt = (L.getD i []).getD d dflt := by
  induction L generalizing i with
  | nil => simp at hi
  | cons l ls ih =>
    have hl : l.length = dim := h l (List.mem_cons_self l ls)
    cases i with
    | zero =>
      have hlt : d < l.length := by omega
      simp only [List.flatten_cons, Nat.zero_mul, Nat.zero_add, List.getD_cons_zero]
      rw [List.getD_eq_getElem?_getD, List.getElem?_append, if_pos hlt,
        ← List.getD_eq_getElem?_getD]
    | succ j =>
      have hj : j < ls.length := by simpa using hi
      have harith : (j + 1) * dim + d = l.length + (j * dim + d) := by
        rw [hl]; ring
      simp only [List.flatten_cons, harith]
      rw [List.getD_eq_getElem?_getD, List.getElem?_append_right (by omega),
        ← List.getD_eq_getElem?_getD]
      have := ih (fun x hx => h x (List.mem_cons_of_mem l hx)) j hj
      simpa using this

/-- The blob produced by a successful `packEmbeddingsBinary` run on a
non-empty equal-length batch. -/
def packedBlobOf (first : EmbeddingRow) (rest : List EmbeddingRow) : PackedBlob :=
  { m0 := 0x45, m1 := 0x4d, m2 := 0x42, m3 := 0x44, version := 1,
    count := (first :: rest).length % 2 ^ 32,
    dim := first.embedding.length % 2 ^ 32,
    dtype := 1, pad := [0, 0],
    scales := (first :: rest).map (fun r => scaleOf r.embedding),
    data := ((first :: rest).map (fun r => (quantizeVector r.embedding).2)).flatten }

/-- Successful run of `packEmbeddingsBinary` on a non-empty equal-length
batch, with the produced blob spelt out. -/
theorem pack_ok (first : EmbeddingRow) (rest : List EmbeddingRow)
    (h : ∀ r ∈ first :: rest, r.embedding.length = first.embedding.length) :
    packEmbeddingsBinary (first :: rest) = .ok (packedBlobOf first rest) := by
  have hpv := packVectors_ok first.embedding.length (first :: rest) h
  simp only [packEmbeddingsBinary, hpv, List.map_map, packedBlobOf]
  rfl

/-! ### Claims C3, C7, C8, C9: codec -/

/-- C3: `packEmbeddingsBinary` quantizes each vector independently with
scale `maxAbs / 127` (or `1` for an all-zero vector) and stores every
component as `round(v / scale)` clamped to `[-127, 127]`; every stored
int8 lies in `[-127, 127]` (never `-128`) and every stored scale is
strictly positive. -/
theorem pack_per_vector_quantization (first : EmbeddingRow) (rest : List EmbeddingRow)
    (hd : ∀ r ∈ first :: rest, r.embedding.length = first.embedding.length) :
    ∃ blob, packEmbeddingsBinary (first :: rest) = .ok blob ∧
      blob.scales = (first :: rest).map (fun r =>
        if 0 < maxAbsOf r.embedding then maxAbsOf r.embedding / 127 else 1) ∧
      blob.data = ((first :: rest).map (fun r =>
        r.embedding.map (fun v => clampInt8 (jsRound (v / scaleOf r.embedding))))).flatten ∧
      (∀ sc ∈ blob.scales, 0 < sc) ∧
      (∀ z ∈ blob.data, -127 ≤ z ∧ z ≤ 127) := by
  refine ⟨_, pack_ok first rest hd, rfl, rfl, ?_, ?_⟩
  · intro sc hsc
    simp only [packedBlobOf, List.mem_map] at hsc
    obtain ⟨r, _, hr⟩ := hsc
    rw [← hr]
    exact scaleOf_pos _
  · intro z hz
    simp only [packedBlobOf, List.mem_flatten, List.mem_map] at hz
    obtain ⟨l, ⟨r, _, hl⟩, hzl⟩ := hz
    rw [← hl] at hzl
    simp only [quantizeVector, List.mem_map] at hzl
    obtain ⟨v, _, hv⟩ := hzl
    rw [← hv]
    exact clampInt8_bounds _

/-- Witness for C3 at a concrete two-row batch. -/
theorem pack_per_vector_quantization_witness :
    ∃ blob, packEmbeddingsBinary [⟨"a", [127, 0]⟩, ⟨"b", [-1, 1]⟩] = .ok blob ∧
      blob.scales = ([⟨"a", [127, 0]⟩, ⟨"b", [-1, 1]⟩] : List EmbeddingRow).map (fun r =>
        if 0 < maxAbsOf r.embedding then maxAbsOf r.embedding / 127 else 1) ∧
      blob.data = (([⟨"a", [127, 0]⟩, ⟨"b", [-1, 1]⟩] : List EmbeddingRow).map (fun r =>
        r.embedding.map (fun v => clampInt8 (jsRound (v / scaleOf r.embedding))))).flatten ∧
      (∀ sc ∈ blob.scales, 0 < sc) ∧
      (∀ z ∈ blob.data, -127 ≤ z ∧ z ≤ 127) :=
  pack_per_vector_quantization ⟨"a", [127, 0]⟩ [⟨"b", [-1, 1]⟩] (by decide)

/-- C7: `decodeEmbeddingsBinary` fails on any blob with wrong magic,
version or dtype, and — once the header and the view bounds are fine —
fails with the meta-length-mismatch error whenever the supplied meta's
length differs from the encoded count.  Failure is an `Except.error`,
so no partial result is ever returned. -/
theorem decode_header_and_meta_validation (blob : PackedBlob) (meta : Option (List MetaItem)) :
    ((¬(blob.m0 = 0x45 ∧ blob.m1 = 0x4d ∧ blob.m2 = 0x42 ∧ blob.m3 = 0x44) ∨
        blob.version ≠ 1 ∨ blob.dtype ≠ 1) →
      ∃ msg, decodeEmbeddingsBinary blob meta = .error msg) ∧
    (∀ m : List MetaItem, blob.m0 = 0x45 → blob.m1 = 0x4d → blob.m2 = 0x42 →
      blob.m3 = 0x44 → blob.version = 1 → blob.dtype = 1 →
      blob.count ≤ blob.scales.length → blob.count * blob.dim ≤ blob.data.length →
      m.length ≠ blob.count →
      decodeEmbeddingsBinary blob (some m) = .error "meta length mismatch") := by
  constructor
  · intro h
    rcases h with h | h | h
    · refine ⟨"bad magic", ?_⟩
      unfold decodeEmbeddingsBinary
      rw [if_pos h]
    · by_cases h1 : ¬(blob.m0 = 0x45 ∧ blob.m1 = 0x4d ∧ blob.m2 = 0x42 ∧ blob.m3 = 0x44)
      · refine ⟨"bad magic", ?_⟩
        unfold decodeEmbeddingsBinary
        rw [if_pos h1]
      · refine ⟨"bad ver", ?_⟩
        unfold decodeEmbeddingsBinary
        rw [if_neg h1, if_pos h]
    · by_cases h1 : ¬(blob.m0 = 0x45 ∧ blob.m1 = 0x4d ∧ blob.m2 = 0x42 ∧ blob.m3 = 0x44)
      · refine ⟨"bad magic", ?_⟩
        unfold decodeEmbeddingsBinary
        rw [if_pos h1]
      · by_cases h2 : blob.version ≠ 1
        · refine ⟨"bad ver", ?_⟩
          unfold decodeEmbeddingsBinary
          rw [if_neg h1, if_pos h2]
        · refine ⟨"bad dt", ?_⟩
          unfold decodeEmbeddingsBinary
          rw [if_neg h1, if_neg h2, if_pos h]
  · intro m hm0 hm1 hm2 hm3 hv hdt hs hdata hlen
    unfold decodeEmbeddingsBinary
    rw [if_neg (by simp [hm0, hm1, hm2, hm3]), if_neg (by simp [hv]),
      if_neg (by simp [hdt]), if_neg (by omega), if_neg (by omega)]
    simp [hlen]

/-- Witness for C7: a blob with corrupted magic is rejected, and a good
header with a short meta hits the meta-length-mismatch error. -/
theorem decode_header_and_meta_validation_witness :
    (∃ msg, decodeEmbeddingsBinary ⟨0, 0x4d, 0x42, 0x44, 1, 1, 1, 1, [0, 0], [1], [0]⟩ none
        = .error msg) ∧
    decodeEmbeddingsBinary ⟨0x45, 0x4d, 0x42, 0x44, 1, 1, 1, 1, [0, 0], [1], [0]⟩ (some [])
        = .error "meta length mismatch" :=
  ⟨(decode_header_and_meta_validation ⟨0, 0x4d, 0x42, 0x44, 1, 1, 1, 1, [0, 0], [1], [0]⟩ none).1
      (by decide),
   (decode_header_and_meta_validation ⟨0x45, 0x4d, 0x42, 0x44, 1, 1, 1, 1, [0, 0], [1], [0]⟩
      (some [])).2 [] rfl rfl rfl rfl rfl rfl (by decide) (by decide) (by decide)⟩

/-- C8: `packEmbeddingsBinary` throws on the empty batch and on any
batch containing a vector whose length differs from the first vector's;
on success the payload holds exactly `n * dim` quantized cells — nothing
padded, nothing truncated. -/
theorem pack_empty_and_mismatch_rejection :
    (packEmbeddingsBinary [] = .error "no embeddings") ∧
    (∀ (first : EmbeddingRow) (rest : List EmbeddingRow),
      (∃ r ∈ first :: rest, r.embedding.length ≠ first.embedding.length) →
      packEmbeddingsBinary (first :: rest) = .error "dim mismatch") ∧
    (∀ (first : EmbeddingRow) (rest : List EmbeddingRow),
      (∀ r ∈ first :: rest, r.embedding.length = first.embedding.length) →
      ∃ blob, packEmbeddingsBinary (first :: rest) = .ok blob ∧
        blob.data.length = (first :: rest).length * first.embedding.length) := by
  refine ⟨rfl, ?_, ?_⟩
  · intro first rest h
    simp [packEmbeddingsBinary, packVectors_error first.embedding.length (first :: rest) h]
  · intro first rest h
    refine ⟨_, pack_ok first rest h, ?_⟩
    have hlen : ∀ l ∈ (first :: rest).map (fun r => (quantizeVector r.embedding).2),
        l.length = first.embedding.length := by
      intro l hl
      simp only [List.mem_map] at hl
      obtain ⟨r, hr, hrl⟩ := hl
      rw [← hrl]
      simp [quantizeVector, h r hr]
    show ((first :: rest).map (fun r => (quantizeVector r.embedding).2)).flatten.length = _
    rw [flatten_length_const _ first.embedding.length hlen]
    simp

/-- Witness for C8: a mismatched batch is rejected; an equal-length
batch succeeds with a full payload. -/
theorem pack_empty_and_mismatch_rejection_witness :
    packEmbeddingsBinary [⟨"a", [1, 2]⟩, ⟨"b", [3]⟩] = .error "dim mismatch" ∧
    ∃ blob, packEmbeddingsBinary [⟨"a", [127, 0]⟩] = .ok blob ∧
      blob.data.length = 1 * 2 :=
  ⟨pack_empty_and_mismatch_rejection.2.1 ⟨"a", [1, 2]⟩ [⟨"b", [3]⟩] (by decide),
   by
    have h := pack_empty_and_mismatch_rejection.2.2 ⟨"a", [127, 0]⟩ [] (by decide)
    simpa using h⟩

/-- C9: `packEmbeddingsBinary` is deterministic — identical input
batches yield identical blobs. -/
theorem pack_deterministic (b1 b2 : List EmbeddingRow) (h : b1 = b2) :
    packEmbeddingsBinary b1 = packEmbeddingsBinary b2 := by rw [h]

/-- Witness for C9. -/
theorem pack_deterministic_witness :
    packEmbeddingsBinary [⟨"a", [1]⟩] = packEmbeddingsBinary [⟨"a", [1]⟩] :=
  pack_deterministic [⟨"a", [1]⟩] [⟨"a", [1]⟩] rfl

/-! ### Round-trip lemmas (C4) -/

theorem absDivScale_le (vec : List ℚ) (v : ℚ) (hv : v ∈ vec)
    (hpos : 0 < maxAbsOf vec) : |v / scaleOf vec| ≤ 127 := by
  have h1 : |v| ≤ maxAbsOf vec := abs_le_maxAbsOf vec v hv
  have hs : scaleOf vec = maxAbsOf vec / 127 := by
    unfold scaleOf; rw [if_pos hpos]
  rw [hs, abs_div, abs_of_pos (by positivity : (0:ℚ) < maxAbsOf vec / 127),
    div_le_iff₀ (by positivity)]
  calc |v| ≤ maxAbsOf vec := h1
    _ = 127 * (maxAbsOf vec / 127) := by ring

theorem quantize_recon_err (vec : List ℚ) (v : ℚ) (hv : v ∈ vec) :
    |(clampInt8 (jsRound (v / scaleOf vec)) : ℚ) * scaleOf vec - v|
      ≤ maxAbsOf vec / 254 := by
  by_cases hpos : 0 < maxAbsOf vec
  · have hs : scaleOf vec = maxAbsOf vec / 127 := by
      unfold scaleOf; rw [if_pos hpos]
    have hb := jsRound_mem_Icc (v / scaleOf vec) (absDivScale_le vec v hv hpos)
    rw [clampInt8_eq_self _ hb.1 hb.2]
    have herr := abs_jsRound_sub_le (v / scaleOf vec)
    have hscale : 0 < scaleOf vec := scaleOf_pos vec
    have hfact : (jsRound (v / scaleOf vec) : ℚ) * scaleOf vec - v
        = ((jsRound (v / scaleOf vec) : ℚ) - v / scaleOf vec) * scaleOf vec := by
      field_simp
    rw [hfact, abs_mul, abs_of_pos hscale]
    calc |(jsRound (v / scaleOf vec) : ℚ) - v / scaleOf vec| * scaleOf vec
        ≤ (1/2) * scaleOf vec := mul_le_mul_of_nonneg_right herr (le_of_lt hscale)
      _ = maxAbsOf vec / 254 := by rw [hs]; ring
  · have hnn := maxAbsOf_nonneg vec
    have h0 : maxAbsOf vec = 0 := le_antisymm (not_lt.mp hpos) hnn
    have hv0 : v = 0 := by
      have h2 := abs_le_maxAbsOf vec v hv
      rw [h0] at h2
      exact abs_eq_zero.mp (le_antisymm h2 (abs_nonneg v))
    have hs : scaleOf vec = 1 := by unfold scaleOf; rw [if_neg hpos]
    rw [hv0, hs, h0]
    have hr : jsRound (0 / 1) = 0 := by norm_num [jsRound]
    rw [hr]
    norm_num [clampInt8]

theorem getD_map_of_lt {α β : Type} (l : List α) (f : α → β) (i : Nat)
    (hi : i < l.length) (d0 : α) (d1 : β) :
    (l.map f).getD i d1 = f (l.getD i d0) := by
  rw [List.getD_eq_getElem?_getD, List.getElem?_map,
    List.getElem?_eq_getElem hi, List.getD_eq_getElem?_getD,
    List.getElem?_eq_getElem hi]
  simp

theorem range_map_getD {α β : Type} (l : List α) (f : α → β) (d0 : α) :
    (List.range l.length).map (fun i => f (l.getD i d0)) = l.map f := by
  refine List.ext_getElem (by simp) ?_
  intro i h1 h2
  simp only [List.getElem_map, List.getElem_range]
  rw [List.getD_eq_getElem?_getD,
    List.getElem?_eq_getElem (by simpa using h1)]
  simp

/-- The dequantized rows built by `decodeEmbeddingsBinary` when meta is
supplied and all checks pass. -/
def decodedRowsOf (blob : PackedBlob) (m : List MetaItem) : List EmbeddingRow :=
  (List.range blob.count).map (fun i =>
    ({ content := (m.getD i ⟨none, none⟩).content.getD
          ((m.getD i ⟨none, none⟩).id.getD "")
       embedding := (List.range blob.dim).map (fun d =>
         ((blob.data.take (blob.count * blob.dim)).getD (i * blob.dim + d) 0 : ℚ) *
           (if (blob.scales.take blob.count).getD i 0 = 0 then 1
            else (blob.scales.take blob.count).getD i 0)) } : EmbeddingRow))

/-- Successful run of `decodeEmbeddingsBinary` with meta supplied, all
header checks passing and the buffer large enough. -/
theorem decode_ok (blob : PackedBlob) (m : List MetaItem)
    (h0 : blob.m0 = 0x45) (h1 : blob.m1 = 0x4d) (h2 : blob.m2 = 0x42) (h3 : blob.m3 = 0x44)
    (hv : blob.version = 1) (hdt : blob.dtype = 1)
    (hs : blob.count ≤ blob.scales.length)
    (hdata : blob.count * blob.dim ≤ blob.data.length)
    (hm : m.length = blob.count) :
    decodeEmbeddingsBinary blob (some m) = .ok
      ⟨blob.count, blob.dim, blob.scales.take blob.count,
        blob.data.take (blob.count * blob.dim),
        some (decodedRowsOf blob m)⟩ := by
  unfold decodeEmbeddingsBinary decodedRowsOf
  rw [if_neg (by simp [h0, h1, h2, h3]), if_neg (by simp [hv]), if_neg (by simp [hdt]),
    if_neg (by omega), if_neg (by omega)]
  simp [hm]

theorem getD_take_of_lt {α : Type} (l : List α) (n i : Nat) (hi : i < n) (d : α) :
    (l.take n).getD i d = l.getD i d := by
  rw [List.getD_eq_getElem?_getD, List.getD_eq_getElem?_getD, List.getElem?_take,
    if_pos hi]

theorem decodedRowsOf_length (blob : PackedBlob) (m : List MetaItem) :
    (decodedRowsOf blob m).length = blob.count := by
  simp [decodedRowsOf]

theorem decodedRowsOf_getD (blob : PackedBlob) (m : List MetaItem) (i : Nat)
    (hi : i < blob.count) :
    (decodedRowsOf blob m).getD i default =
      ({ content := (m.getD i ⟨none, none⟩).content.getD
            ((m.getD i ⟨none, none⟩).id.getD "")
         embedding := (List.range blob.dim).map (fun d =>
           ((blob.data.take (blob.count * blob.dim)).getD (i * blob.dim + d) 0 : ℚ) *
             (if (blob.scales.take blob.count).getD i 0 = 0 then 1
              else (blob.scales.take blob.count).getD i 0)) } : EmbeddingRow) := by
  unfold decodedRowsOf
  rw [getD_map_of_lt (List.range blob.count) _ i (by simpa using hi) 0 default]
  have hri : (List.range blob.count).getD i 0 = i := by
    rw [List.getD_eq_getElem?_getD, List.getElem?_range hi]
    rfl
  rw [hri]

theorem getD_mem_of_lt {α : Type} (l : List α) (i : Nat) (hi : i < l.length) (d : α) :
    l.getD i d ∈ l := by
  rw [List.getD_eq_getElem?_getD, List.getElem?_eq_getElem hi]
  simp [List.getElem_mem]

/-! ### Claim C4: round trip (amended) -/

/-- C4 (amended): for every non-empty batch of equal-length vectors
(sizes below `2^32`) with matching meta, decoding the encoded blob
reconstructs each vector exactly as `q_d * scale`, and every
reconstructed component is within `maxAbs / 254` (half the quantization
step) of the original.  The universal `cosine > 0.98` tolerance of the
spec does not hold — see the counterexample theorem. -/
theorem roundtrip_reconstruction (first : EmbeddingRow) (rest : List EmbeddingRow)
    (meta : List MetaItem)
    (hd : ∀ r ∈ first :: rest, r.embedding.length = first.embedding.length)
    (hn : (first :: rest).length < 2 ^ 32)
    (hdim : first.embedding.length < 2 ^ 32)
    (hm : meta.length = (first :: rest).length) :
    ∃ blob dec rows, packEmbeddingsBinary (first :: rest) = .ok blob ∧
      decodeEmbeddingsBinary blob (some meta) = .ok dec ∧
      dec.rows = some rows ∧
      rows.length = (first :: rest).length ∧
      ∀ i, i < (first :: rest).length →
        (rows.getD i default).embedding =
          ((first :: rest).getD i default).embedding.map (fun v =>
            (clampInt8 (jsRound (v / scaleOf ((first :: rest).getD i default).embedding)) : ℚ) *
              scaleOf ((first :: rest).getD i default).embedding) ∧
        ∀ d, d < ((first :: rest).getD i default).embedding.length →
          |(rows.getD i default).embedding.getD d 0 -
              ((first :: rest).getD i default).embedding.getD d 0|
            ≤ maxAbsOf ((first :: rest).getD i default).embedding / 254 := by
  have hpack := pack_ok first rest hd
  have hcount : (packedBlobOf first rest).count = (first :: rest).length :=
    Nat.mod_eq_of_lt hn
  have hdim' : (packedBlobOf first rest).dim = first.embedding.length :=
    Nat.mod_eq_of_lt hdim
  have hslen : (packedBlobOf first rest).scales.length = (first :: rest).length := by
    simp [packedBlobOf]
  have hq2len : ∀ l ∈ (first :: rest).map (fun r => (quantizeVector r.embedding).2),
      l.length = first.embedding.length := by
    intro l hl
    simp only [List.mem_map] at hl
    obtain ⟨r, hr, hrl⟩ := hl
    rw [← hrl]
    simp [quantizeVector, hd r hr]
  have hdlen : (packedBlobOf first rest).data.length
      = (first :: rest).length * first.embedding.length := by
    show ((first :: rest).map fun r => (quantizeVector r.embedding).2).flatten.length = _
    rw [flatten_length_const _ first.embedding.length hq2len]
    simp
  have hdec := decode_ok (packedBlobOf first rest) meta rfl rfl rfl rfl rfl rfl
    (by rw [hcount, hslen]) (by rw [hcount, hdim', hdlen]) (by rw [hcount]; exact hm)
  refine ⟨packedBlobOf first rest, _, decodedRowsOf (packedBlobOf first rest) meta,
    hpack, hdec, rfl, ?_, ?_⟩
  · rw [decodedRowsOf_length, hcount]
  · intro i hi
    have hiB : i < (packedBlobOf first rest).count := by rw [hcount]; exact hi
    have hmem : (first :: rest).getD i default ∈ (first :: rest) :=
      getD_mem_of_lt (first :: rest) i hi default
    have horiglen : ((first :: rest).getD i default).embedding.length
        = first.embedding.length := hd _ hmem
    have hscaleD : (packedBlobOf first rest).scales.getD i 0
        = scaleOf ((first :: rest).getD i default).embedding := by
      show ((first :: rest).map (fun r => scaleOf r.embedding)).getD i 0 = _
      exact getD_map_of_lt (first :: rest) (fun r => scaleOf r.embedding) i hi default 0
    have hifscale : (if ((packedBlobOf first rest).scales.take
          (packedBlobOf first rest).count).getD i 0 = 0 then (1 : ℚ)
        else ((packedBlobOf first rest).scales.take (packedBlobOf first rest).count).getD i 0)
        = scaleOf ((first :: rest).getD i default).embedding := by
      rw [getD_take_of_lt _ _ i hiB, hscaleD,
        if_neg (ne_of_gt (scaleOf_pos _))]
    have hdataD : ∀ d, d < first.embedding.length →
        ((packedBlobOf first rest).data.take
            ((packedBlobOf first rest).count * first.embedding.length)).getD
          (i * first.embedding.length + d) 0
        = (quantizeVector ((first :: rest).getD i default).embedding).2.getD d 0 := by
      intro d hdlt
      have hidx : i * first.embedding.length + d
          < (packedBlobOf first rest).count * first.embedding.length := by
        rw [hcount]
        calc i * first.embedding.length + d
            < i * first.embedding.length + first.embedding.length := by omega
          _ = (i + 1) * first.embedding.length := by ring
          _ ≤ (first :: rest).length * first.embedding.length :=
            Nat.mul_le_mul_right _ (by omega)
      rw [getD_take_of_lt _ _ _ hidx]
      show (((first :: rest).map fun r => (quantizeVector r.embedding).2).flatten).getD _ 0 = _
      rw [flatten_getD_const _ first.embedding.length hq2len i d (by simpa using hi) hdlt]
      rw [getD_map_of_lt (first :: rest) (fun r => (quantizeVector r.embedding).2) i hi default]
    have hemb : ((decodedRowsOf (packedBlobOf first rest) meta).getD i default).embedding
        = ((first :: rest).getD i default).embedding.map (fun v =>
            (clampInt8 (jsRound (v / scaleOf ((first :: rest).getD i default).embedding)) : ℚ) *
              scaleOf ((first :: rest).getD i default).embedding) := by
      rw [decodedRowsOf_getD _ _ i hiB]
      show (List.range (packedBlobOf first rest).dim).map _ = _
      simp only [hifscale]
      rw [hdim']
      have step1 : (List.range first.embedding.length).map (fun d =>
            (((packedBlobOf first rest).data.take
                ((packedBlobOf first rest).count * first.embedding.length)).getD
              (i * first.embedding.length + d) 0 : ℚ) *
              scaleOf ((first :: rest).getD i default).embedding)
          = (List.range first.embedding.length).map (fun d =>
            ((quantizeVector ((first :: rest).getD i default).embedding).2.getD d 0 : ℚ) *
              scaleOf ((first :: rest).getD i default).embedding) := by
        apply List.map_congr_left
        intro d hdm
        rw [hdataD d (List.mem_range.mp hdm)]
      rw [step1]
      have hlen2 : (quantizeVector ((first :: rest).getD i default).embedding).2.length
          = first.embedding.length := by
        show (((first :: rest).getD i default).embedding.map _).length = _
        rw [List.length_map, horiglen]
      have step2 := range_map_getD
        (quantizeVector ((first :: rest).getD i default).embedding).2
        (fun z : ℤ => (z : ℚ) * scaleOf ((first :: rest).getD i default).embedding) 0
      rw [← hlen2, step2]
      simp only [quantizeVector, List.map_map]
      rfl
    refine ⟨hemb, ?_⟩
    intro d hdo
    rw [hemb, getD_map_of_lt _ _ d hdo 0 0]
    exact quantize_recon_err _ _
      (getD_mem_of_lt ((first :: rest).getD i default).embedding d hdo 0)

/-- Witness for C4 (amended) at a concrete one-row batch. -/
theorem roundtrip_reconstruction_witness :
    ∃ blob dec rows,
      packEmbeddingsBinary [⟨"a", [127]⟩] = .ok blob ∧
      decodeEmbeddingsBinary blob (some [⟨some "a", none⟩]) = .ok dec ∧
      dec.rows = some rows ∧
      rows.length = ([⟨"a", [127]⟩] : List EmbeddingRow).length ∧
      ∀ i, i < ([⟨"a", [127]⟩] : List EmbeddingRow).length →
        (rows.getD i default).embedding =
          (([⟨"a", [127]⟩] : List EmbeddingRow).getD i default).embedding.map (fun v =>
            (clampInt8 (jsRound (v /
                scaleOf (([⟨"a", [127]⟩] : List EmbeddingRow).getD i default).embedding)) : ℚ) *
              scaleOf (([⟨"a", [127]⟩] : List EmbeddingRow).getD i default).embedding) ∧
        ∀ d, d < (([⟨"a", [127]⟩] : List EmbeddingRow).getD i default).embedding.length →
          |(rows.getD i default).embedding.getD d 0 -
              (([⟨"a", [127]⟩] : List EmbeddingRow).getD i default).embedding.getD d 0|
            ≤ maxAbsOf (([⟨"a", [127]⟩] : List EmbeddingRow).getD i default).embedding / 254 :=
  roundtrip_reconstruction ⟨"a", [127]⟩ [] [⟨some "a", none⟩]
    (by decide) (by norm_num) (by norm_num) rfl

/-- Counterexample for C4 as stated: the all-zero vector is a
finite-valued batch, its round trip reconstructs the zero vector, and
the repository's own cosine of the pair is `0`, not greater than
`0.98 = 49/50`. -/
theorem roundtrip_cosine_counterexample :
    packEmbeddingsBinary [⟨"z", [0]⟩]
        = .ok ⟨0x45, 0x4d, 0x42, 0x44, 1, 1, 1, 1, [0, 0], [1], [0]⟩ ∧
    decodeEmbeddingsBinary ⟨0x45, 0x4d, 0x42, 0x44, 1, 1, 1, 1, [0, 0], [1], [0]⟩
        (some [⟨some "z", none⟩]) = .ok ⟨1, 1, [1], [0], some [⟨"z", [0]⟩]⟩ ∧
    ¬ cosineSimGt [0] [0] (49 / 50) := by
  refine ⟨?_, ?_, ?_⟩
  · have h := pack_ok ⟨"z", [0]⟩ [] (by decide)
    rw [h]
    simp only [packedBlobOf, quantizeVector, Except.ok.injEq, PackedBlob.mk.injEq]
    norm_num [scaleOf, maxAbsOf, jsRound, clampInt8]
  · have h := decode_ok ⟨0x45, 0x4d, 0x42, 0x44, 1, 1, 1, 1, [0, 0], [1], [0]⟩
      [⟨some "z", none⟩] rfl rfl rfl rfl rfl rfl (by norm_num) (by norm_num) rfl
    rw [h]
    simp only [decodedRowsOf, Except.ok.injEq, DecodedEmbeddings.mk.injEq]
    have hr1 : List.range 1 = [0] := rfl
    norm_num [hr1]
  · norm_num [cosineSimGt, innerProduct]

/-! ### Claims C1, C5, C6, C10: coordinator -/

/-- C1: a `complete` message carrying an embedding that arrives while
the store is still loading does not fail: the handler suspends on the
store-ready promise (leaving `isSearching` true and `matched`
untouched), and when the load completes the deferred query runs —
`matched` becomes the ordered result identifiers, `isSearching` drops to
false and `dbReady` is set.  In the model the handler is a total
function, so no exception can be thrown on this path. -/
theorem complete_awaits_store_then_searches {DB : Type}
    (search : DB → List ℚ → List SearchHit) (s : CoreState DB) (emb : List ℚ)
    (hdb : s.database = none) (hp : s.promiseCreated = true)
    (hv : s.promiseValue = none) (hs : s.isSearching = true) (hw : s.waiters = []) :
    (EmojiSearchCore.handleWorkerMessage search ⟨some .complete, some emb⟩ s).isSearching = true ∧
    (EmojiSearchCore.handleWorkerMessage search ⟨some .complete, some emb⟩ s).matched = s.matched ∧
    (EmojiSearchCore.handleWorkerMessage search ⟨some .complete, some emb⟩ s).waiters = [some emb] ∧
    ∀ db : DB,
      (EmojiSearchCore.loadDbOk search db
          (EmojiSearchCore.handleWorkerMessage search ⟨some .complete, some emb⟩ s)).matched
        = some ((search db emb).map (fun h => h.identifier)) ∧
      (EmojiSearchCore.loadDbOk search db
          (EmojiSearchCore.handleWorkerMessage search ⟨some .complete, some emb⟩ s)).isSearching
        = false ∧
      (EmojiSearchCore.loadDbOk search db
          (EmojiSearchCore.handleWorkerMessage search ⟨some .complete, some emb⟩ s)).dbReady
        = true := by
  have hstep : EmojiSearchCore.handleWorkerMessage search ⟨some .complete, some emb⟩ s
      = { s with waiters := s.waiters ++ [some emb] } := by
    simp [EmojiSearchCore.handleWorkerMessage, hdb, hp, hv]
  rw [hstep]
  refine ⟨hs, rfl, by simp [hw], ?_⟩
  intro db
  simp [EmojiSearchCore.loadDbOk, hp, hw, EmojiSearchCore.resumeComplete]

/-- Witness for C1: a fresh coordinator that created its store-ready
promise, is mid-search, and receives `complete` before the store load
resolves. -/
theorem complete_awaits_store_then_searches_witness :
    (EmojiSearchCore.handleWorkerMessage (fun (_ : Nat) (_ : List ℚ) => [⟨"x"⟩])
        ⟨some .complete, some [1]⟩
        ⟨none, false, false, true, none, true, none, [], none, []⟩).isSearching = true ∧
    (EmojiSearchCore.handleWorkerMessage (fun (_ : Nat) (_ : List ℚ) => [⟨"x"⟩])
        ⟨some .complete, some [1]⟩
        ⟨none, false, false, true, none, true, none, [], none, []⟩).matched
      = (⟨none, false, false, true, none, true, none, [], none, []⟩ : CoreState Nat).matched ∧
    (EmojiSearchCore.handleWorkerMessage (fun (_ : Nat) (_ : List ℚ) => [⟨"x"⟩])
        ⟨some .complete, some [1]⟩
        ⟨none, false, false, true, none, true, none, [], none, []⟩).waiters = [some [1]] ∧
    ∀ db : Nat,
      (EmojiSearchCore.loadDbOk (fun (_ : Nat) (_ : List ℚ) => [⟨"x"⟩]) db
          (EmojiSearchCore.handleWorkerMessage (fun (_ : Nat) (_ : List ℚ) => [⟨"x"⟩])
            ⟨some .complete, some [1]⟩
            ⟨none, false, false, true, none, true, none, [], none, []⟩)).matched
        = some (([⟨"x"⟩] : List SearchHit).map (fun h => h.identifier)) ∧
      (EmojiSearchCore.loadDbOk (fun (_ : Nat) (_ : List ℚ) => [⟨"x"⟩]) db
          (EmojiSearchCore.handleWorkerMessage (fun (_ : Nat) (_ : List ℚ) => [⟨"x"⟩])
            ⟨some .complete, some [1]⟩
            ⟨none, false, false, true, none, true, none, [], none, []⟩)).isSearching = false ∧
      (EmojiSearchCore.loadDbOk (fun (_ : Nat) (_ : List ℚ) => [⟨"x"⟩]) db
          (EmojiSearchCore.handleWorkerMessage (fun (_ : Nat) (_ : List ℚ) => [⟨"x"⟩])
            ⟨some .complete, some [1]⟩
            ⟨none, false, false, true, none, true, none, [], none, []⟩)).dbReady = true :=
  complete_awaits_store_then_searches (fun _ _ => [⟨"x"⟩])
    ⟨none, false, false, true, none, true, none, [], none, []⟩ [1] rfl rfl rfl rfl rfl

/-- C10: `classify` on empty — or, as implemented, whitespace-only —
text clears the pending debounced dispatch, nulls `matched`, drops
`isSearching`, and posts nothing to the worker (the full state equality
shows `posted` is untouched). -/
theorem classify_blank_clears {DB : Type} (s : CoreState DB) (text : String)
    (noCache : Option Bool) (h : EmojiSearchCore.jsTrim text = "") :
    EmojiSearchCore.classify text noCache s =
      { s with debounceTimer := none, matched := none, isSearching := false } := by
  simp [EmojiSearchCore.classify, h]

/-- Witness for C10 on a whitespace-only query against a state with a
pending debounce. -/
theorem classify_blank_clears_witness :
    EmojiSearchCore.classify " " none
        (⟨some ["y"], true, true, true, none, true, none, [], some ⟨"old", none⟩, []⟩ :
          CoreState Nat)
      = ⟨none, true, true, false, none, true, none, [], none, []⟩ :=
  classify_blank_clears
    (⟨some ["y"], true, true, true, none, true, none, [], some ⟨"old", none⟩, []⟩ : CoreState Nat)
    " " none (by decide)

theorem classify_burst_aux {DB : Type} (ts : List String) (hne : ts ≠ [])
    (hok : ∀ t ∈ ts, EmojiSearchCore.jsTrim t ≠ "") (s : CoreState DB) :
    (ts.foldl (fun st t => EmojiSearchCore.classify t none st) s).posted = s.posted ∧
    (ts.foldl (fun st t => EmojiSearchCore.classify t none st) s).isSearching = true ∧
    (ts.foldl (fun st t => EmojiSearchCore.classify t none st) s).debounceTimer
      = some ⟨ts.getLast hne, none⟩ := by
  induction ts generalizing s with
  | nil => exact absurd rfl hne
  | cons t ts ih =>
    cases ts with
    | nil =>
      simp [EmojiSearchCore.classify, hok t (List.mem_cons_self t [])]
    | cons t2 ts2 =>
      rw [List.foldl_cons]
      have hrest := ih (by simp) (fun x hx => hok x (List.mem_cons_of_mem t hx))
        (EmojiSearchCore.classify t none s)
      have hposted : (EmojiSearchCore.classify t none s).posted = s.posted := by
        unfold EmojiSearchCore.classify
        split <;> rfl
      refine ⟨?_, hrest.2.1, ?_⟩
      · rw [hrest.1, hposted]
      · rw [hrest.2.2]
        rfl

/-- C5: in a burst of non-blank `classify` calls with no intervening
timer expiry, every call sets `isSearching` immediately and replaces
the pending debounced dispatch, so nothing is posted during the burst;
when the (single surviving) timer finally fires, the worker receives
exactly one query message, carrying the last call's text. -/
theorem debounce_burst_single_dispatch {DB : Type} (ts : List String) (hne : ts ≠ [])
    (hok : ∀ t ∈ ts, EmojiSearchCore.jsTrim t ≠ "") (s : CoreState DB) :
    (∀ t, EmojiSearchCore.jsTrim t ≠ "" → ∀ st : CoreState DB,
      (EmojiSearchCore.classify t none st).isSearching = true ∧
      (EmojiSearchCore.classify t none st).debounceTimer = some ⟨t, none⟩ ∧
      (EmojiSearchCore.classify t none st).posted = st.posted) ∧
    (ts.foldl (fun st t => EmojiSearchCore.classify t none st) s).posted = s.posted ∧
    (EmojiSearchCore.fireDebounce
        (ts.foldl (fun st t => EmojiSearchCore.classify t none st) s)).posted
      = s.posted ++ [WorkerInbound.query (ts.getLast hne) none] ∧
    (ts.foldl (fun st t => EmojiSearchCore.classify t none st) s).isSearching = true := by
  obtain ⟨h1, h2, h3⟩ := classify_burst_aux ts hne hok s
  refine ⟨?_, h1, ?_, h2⟩
  · intro t ht st
    refine ⟨?_, ?_, ?_⟩ <;> simp [EmojiSearchCore.classify, ht]
  · unfold EmojiSearchCore.fireDebounce
    rw [h3]
    simp only []
    rw [h1]

/-- Witness for C5: a three-keystroke burst posts nothing until the
timer fires, and then exactly one query with the last text. -/
theorem debounce_burst_single_dispatch_witness :
    ((["a", "b", "c"].foldl (fun st t => EmojiSearchCore.classify t none st)
        (CoreState.mk0 Nat)).posted = (CoreState.mk0 Nat).posted) ∧
    (EmojiSearchCore.fireDebounce
        (["a", "b", "c"].foldl (fun st t => EmojiSearchCore.classify t none st)
          (CoreState.mk0 Nat))).posted
      = (CoreState.mk0 Nat).posted ++ [WorkerInbound.query "c" none] :=
  ⟨(debounce_burst_single_dispatch ["a", "b", "c"] (by decide) (by decide)
      (CoreState.mk0 Nat)).2.1,
   (debounce_burst_single_dispatch ["a", "b", "c"] (by decide) (by decide)
      (CoreState.mk0 Nat)).2.2.1⟩

/-- C6: a failed store load is swallowed — the `catch` only logs, so
the event is a no-op on the state; and from a state with `dbReady`
false and the store-ready promise unresolved, no event other than a
successful load sets `dbReady`, resolves the promise, or discharges a
suspended `complete` handler (waiters only ever grow), so in-flight
queries keep waiting rather than receiving an error. -/
theorem store_load_failure_swallowed {DB : Type}
    (search : DB → List ℚ → List SearchHit) (s : CoreState DB) :
    (EmojiSearchCore.loadDbErr s = s) ∧
    (s.dbReady = false → s.promiseValue = none →
      ∀ e : EmojiSearchCore.CoreEvent DB, EmojiSearchCore.isDbLoadOk e = false →
        (EmojiSearchCore.step search s e).dbReady = false ∧
        (EmojiSearchCore.step search s e).promiseValue = none ∧
        ∃ tail, (EmojiSearchCore.step search s e).waiters = s.waiters ++ tail) := by
  refine ⟨rfl, ?_⟩
  intro hdb hpv e he
  cases e with
  | initEv nc =>
    exact ⟨hdb, rfl, [], by simp [EmojiSearchCore.step, EmojiSearchCore.initCoordinator]⟩
  | dbLoadOk db => simp [EmojiSearchCore.isDbLoadOk] at he
  | dbLoadErr =>
    exact ⟨hdb, hpv, [], by simp [EmojiSearchCore.step, EmojiSearchCore.loadDbErr]⟩
  | workerMsg m =>
    cases hst : m.status with
    | none =>
      refine ⟨?_, ?_, [], ?_⟩ <;>
        simp [EmojiSearchCore.step, EmojiSearchCore.handleWorkerMessage, hst, hdb, hpv]
    | some ws =>
      cases ws with
      | initiate =>
        refine ⟨?_, ?_, [], ?_⟩ <;>
          simp [EmojiSearchCore.step, EmojiSearchCore.handleWorkerMessage, hst, hdb, hpv]
      | ready =>
        refine ⟨?_, ?_, [], ?_⟩ <;>
          simp [EmojiSearchCore.step, EmojiSearchCore.handleWorkerMessage, hst, hdb, hpv]
      | complete =>
        cases hdbs : s.database with
        | some db =>
          cases hemb : m.embedding with
          | none =>
            refine ⟨?_, ?_, [], ?_⟩ <;>
              simp [EmojiSearchCore.step, EmojiSearchCore.handleWorkerMessage, hst, hdbs,
                hemb, hdb, hpv, EmojiSearchCore.resumeComplete]
          | some emb =>
            refine ⟨?_, ?_, [], ?_⟩ <;>
              simp [EmojiSearchCore.step, EmojiSearchCore.handleWorkerMessage, hst, hdbs,
                hemb, hdb, hpv, EmojiSearchCore.resumeComplete]
        | none =>
          by_cases hpc : s.promiseCreated
          · refine ⟨?_, ?_, [m.embedding], ?_⟩ <;>
              simp [EmojiSearchCore.step, EmojiSearchCore.handleWorkerMessage, hst, hdbs,
                hpc, hpv, hdb]
          · refine ⟨?_, ?_, [], ?_⟩ <;>
              simp [EmojiSearchCore.step, EmojiSearchCore.handleWorkerMessage, hst, hdbs,
                hpc, hpv, hdb]
  | classifyEv t nc =>
    by_cases ht : EmojiSearchCore.jsTrim t = ""
    · refine ⟨?_, ?_, [], ?_⟩ <;>
        simp [EmojiSearchCore.step, EmojiSearchCore.classify, ht, hdb, hpv]
    · refine ⟨?_, ?_, [], ?_⟩ <;>
        simp [EmojiSearchCore.step, EmojiSearchCore.classify, ht, hdb, hpv]
  | debounceFire =>
    cases hdt : s.debounceTimer with
    | none =>
      refine ⟨?_, ?_, [], ?_⟩ <;>
        simp [EmojiSearchCore.step, EmojiSearchCore.fireDebounce, hdt, hdb, hpv]
    | some c =>
      refine ⟨?_, ?_, [], ?_⟩ <;>
        simp [EmojiSearchCore.step, EmojiSearchCore.fireDebounce, hdt, hdb, hpv]

/-- Witness for C6 at a failed-load state with one suspended query. -/
theorem store_load_failure_swallowed_witness :
    (EmojiSearchCore.loadDbErr
        (⟨none, true, false, true, none, true, none, [some [1]], none, []⟩ : CoreState Nat)
      = ⟨none, true, false, true, none, true, none, [some [1]], none, []⟩) ∧
    ((EmojiSearchCore.step (fun (_ : Nat) (_ : List ℚ) => [⟨"x"⟩])
        ⟨none, true, false, true, none, true, none, [some [1]], none, []⟩
        (EmojiSearchCore.CoreEvent.workerMsg ⟨some .complete, some [2]⟩)).dbReady = false ∧
      (EmojiSearchCore.step (fun (_ : Nat) (_ : List ℚ) => [⟨"x"⟩])
        ⟨none, true, false, true, none, true, none, [some [1]], none, []⟩
        (EmojiSearchCore.CoreEvent.workerMsg ⟨some .complete, some [2]⟩)).promiseValue = none ∧
      ∃ tail, (EmojiSearchCore.step (fun (_ : Nat) (_ : List ℚ) => [⟨"x"⟩])
        ⟨none, true, false, true, none, true, none, [some [1]], none, []⟩
        (EmojiSearchCore.CoreEvent.workerMsg ⟨some .complete, some [2]⟩)).waiters
          = [some [1]] ++ tail) :=
  ⟨(store_load_failure_swallowed (fun _ _ => [⟨"x"⟩])
      ⟨none, true, false, true, none, true, none, [some [1]], none, []⟩).1,
   (store_load_failure_swallowed (fun _ _ => [⟨"x"⟩])
      ⟨none, true, false, true, none, true, none, [some [1]], none, []⟩).2 rfl rfl
      (EmojiSearchCore.CoreEvent.workerMsg ⟨some .complete, some [2]⟩) rfl⟩

/-! ### Claim C2: searchEmbeddings -/

theorem argminRow_eq_none (f : StoredRow → ℚ) (l : List StoredRow) :
    argminRow f l = none ↔ l = [] := by
  cases l with
  | nil => simp [argminRow]
  | cons r rs =>
    simp only [argminRow]
    cases argminRow f rs with
    | none => simp
    | some m2 =>
      by_cases hle : f r ≤ f m2
      · simp [hle]
      · simp [hle]

theorem argminRow_mem (f : StoredRow → ℚ) (l : List StoredRow) (m : StoredRow)
    (h : argminRow f l = some m) : m ∈ l := by
  induction l generalizing m with
  | nil => simp [argminRow] at h
  | cons r rs ih =>
    simp only [argminRow] at h
    cases hrec : argminRow f rs with
    | none =>
      simp only [hrec] at h
      cases h
      exact List.mem_cons_self _ _
    | some m2 =>
      simp only [hrec] at h
      by_cases hle : f r ≤ f m2
      · rw [if_pos hle] at h
        cases h
        exact List.mem_cons_self _ _
      · rw [if_neg hle] at h
        cases h
        exact List.mem_cons_of_mem _ (ih _ hrec)

theorem argminRow_le (f : StoredRow → ℚ) (l : List StoredRow) (m : StoredRow)
    (h : argminRow f l = some m) : ∀ x ∈ l, f m ≤ f x := by
  induction l generalizing m with
  | nil => simp [argminRow] at h
  | cons r rs ih =>
    simp only [argminRow] at h
    intro x hx
    cases hrec : argminRow f rs with
    | none =>
      simp only [hrec] at h
      cases h
      rcases List.mem_cons.mp hx with rfl | hx'
      · exact le_refl _
      · exact absurd hx' (by simp [(argminRow_eq_none f rs).mp hrec])
    | some m2 =>
      simp only [hrec] at h
      by_cases hle : f r ≤ f m2
      · rw [if_pos hle] at h
        cases h
        rcases List.mem_cons.mp hx with rfl | hx'
        · exact le_refl _
        · exact le_trans hle (ih _ hrec x hx')
      · rw [if_neg hle] at h
        cases h
        rcases List.mem_cons.mp hx with rfl | hx'
        · exact le_of_lt (not_le.mp hle)
        · exact ih _ hrec x hx'

theorem filterMap_map_eq_filter {α β : Type} (g : α → Option β) (h : β → α) (l : List α)
    (hgh : ∀ a b, g a = some b → h b = a) :
    (l.filterMap g).map h = l.filter (fun a => (g a).isSome) := by
  induction l with
  | nil => rfl
  | cons a l ih =>
    cases hga : g a with
    | none => simp [List.filterMap_cons, hga, List.filter_cons, ih]
    | some b => simp [List.filterMap_cons, hga, List.filter_cons, hgh a b hga, ih]

theorem mem_dedupByIdent {filtered : List StoredRow} {f : StoredRow → ℚ} {r : StoredRow}
    (h : r ∈ ((filtered.map (fun x => x.identifier)).dedup).filterMap
      (fun ident => argminRow f (filtered.filter (fun x => x.identifier = ident)))) :
    r ∈ filtered ∧ ∀ x ∈ filtered, x.identifier = r.identifier → f r ≤ f x := by
  rw [List.mem_filterMap] at h
  obtain ⟨ident, _, hbest⟩ := h
  have hmemf := argminRow_mem _ _ _ hbest
  have hle := argminRow_le _ _ _ hbest
  rw [List.mem_filter] at hmemf
  obtain ⟨hrf, hri⟩ := hmemf
  refine ⟨hrf, ?_⟩
  intro x hx hxid
  apply hle
  rw [List.mem_filter]
  refine ⟨hx, ?_⟩
  rw [hxid]
  exact hri

theorem dedupByIdent_ident_nodup (filtered : List StoredRow) (f : StoredRow → ℚ) :
    ((((filtered.map (fun x => x.identifier)).dedup).filterMap
      (fun ident => argminRow f (filtered.filter (fun x => x.identifier = ident)))).map
        (fun r => r.identifier)).Nodup := by
  have key := filterMap_map_eq_filter
    (fun ident => argminRow f (filtered.filter (fun x => x.identifier = ident)))
    (fun r => r.identifier)
    ((filtered.map (fun x => x.identifier)).dedup)
    (by
      intro ident r hbest
      have hb := argminRow_mem _ _ _ hbest
      rw [List.mem_filter] at hb
      exact of_decide_eq_true hb.2)
  rw [key]
  exact (List.nodup_dedup _).filter _

/-- C2: `searchEmbeddings` returns at most one row per identifier, the
kept row being nearest (smallest `<#>` distance) among all stored rows
sharing its identifier; results all pass the `dist < -matchThreshold`
filter, come from the table, are sorted by distance ascending, and at
most `limit` are returned. -/
theorem searchEmbeddings_dedup_sorted_bounded (table : List StoredRow) (qvec : List ℚ)
    (matchThreshold : ℚ) (limit : Nat) :
    ((searchEmbeddings table qvec matchThreshold limit).map (fun r => r.identifier)).Nodup ∧
    (∀ r ∈ searchEmbeddings table qvec matchThreshold limit, r ∈ table) ∧
    (∀ r ∈ searchEmbeddings table qvec matchThreshold limit,
      ipDist qvec r < -matchThreshold) ∧
    (∀ r ∈ searchEmbeddings table qvec matchThreshold limit, ∀ r' ∈ table,
      r'.identifier = r.identifier → ipDist qvec r ≤ ipDist qvec r') ∧
    List.Sorted (fun a b => ipDist qvec a ≤ ipDist qvec b)
      (searchEmbeddings table qvec matchThreshold limit) ∧
    (searchEmbeddings table qvec matchThreshold limit).length ≤ limit := by
  simp only [searchEmbeddings]
  set filtered := table.filter (fun r => ipDist qvec r < -matchThreshold) with hfil
  set ded := ((filtered.map (fun r => r.identifier)).dedup).filterMap
    (fun ident => argminRow (ipDist qvec) (filtered.filter (fun r => r.identifier = ident)))
    with hded
  set srt := ded.insertionSort (fun a b => ipDist qvec a ≤ ipDist qvec b) with hsrt
  have hperm : List.Perm srt ded := List.perm_insertionSort _ _
  have hsub : List.Sublist (srt.take limit) srt := List.take_sublist _ _
  have hmem_t : ∀ r ∈ srt.take limit, r ∈ ded := fun r hr => hperm.mem_iff.mp (hsub.subset hr)
  have hprops : ∀ r ∈ ded, r ∈ filtered ∧
      ∀ x ∈ filtered, x.identifier = r.identifier →
        ipDist qvec r ≤ ipDist qvec x := by
    intro r hr
    exact mem_dedupByIdent (hded ▸ hr)
  have hthresh : ∀ r ∈ srt.take limit, ipDist qvec r < -matchThreshold := by
    intro r hr
    have h1 := (hprops r (hmem_t r hr)).1
    rw [hfil, List.mem_filter] at h1
    exact of_decide_eq_true h1.2
  refine ⟨?_, ?_, hthresh, ?_, ?_, ?_⟩
  · have hded_nodup : (ded.map (fun r => r.identifier)).Nodup := by
      rw [hded]
      exact dedupByIdent_ident_nodup filtered (ipDist qvec)
    have hsrt_nodup : (srt.map (fun r => r.identifier)).Nodup :=
      ((hperm.map (fun r => r.identifier)).nodup_iff).mpr hded_nodup
    exact List.Nodup.sublist (List.Sublist.map _ hsub) hsrt_nodup
  · intro r hr
    have h1 := (hprops r (hmem_t r hr)).1
    rw [hfil, List.mem_filter] at h1
    exact h1.1
  · intro r hr r' hr' hid
    have hp := hprops r (hmem_t r hr)
    by_cases hf : ipDist qvec r' < -matchThreshold
    · refine hp.2 r' ?_ hid
      rw [hfil, List.mem_filter]
      exact ⟨hr', decide_eq_true hf⟩
    · have h1 := hthresh r hr
      linarith [not_lt.mp hf]
  · haveI : IsTotal StoredRow (fun a b => ipDist qvec a ≤ ipDist qvec b) :=
      ⟨fun a b => le_total _ _⟩
    haveI : IsTrans StoredRow (fun a b => ipDist qvec a ≤ ipDist qvec b) :=
      ⟨fun _ _ _ hab hbc => le_trans hab hbc⟩
    exact List.Pairwise.sublist hsub (List.sorted_insertionSort _ _)
  · exact List.length_take_le _ _
